import Mathlib

/-!
# Verification of the EnsoAI pseudo-terminal subsystem

Shallow embedding of the terminal/session subsystem of the EnsoAI
repository:

* `src/main/utils/shell.ts` — `stripAnsi`, `getEnvForCommand`, `execInPty`
* `src/main/utils/processUtils.ts` — `killProcessTree`
* `src/main/services/terminal/PtyManager.ts` — `getEnhancedPath`,
  `PtyManager` (create / write / resize / destroy / destroyByWorkdir)

Strings are modelled as `List Char`; JavaScript objects used as string
maps are modelled as `String → Option String`; the asynchronous
`execInPty` promise is modelled by a pure outcome function over the
possible first event (spawn error, timeout firing first, process exit
firing first).
-/

namespace Enso

/-! ## stripAnsi (src/main/utils/shell.ts)

`str.replace(/\x1b\[[0-9;]*[a-zA-Z]/g, '')`: a global left-to-right
scan deleting every match of `ESC [ [0-9;]* letter`.  Since the
parameter class `[0-9;]` and the final class `[a-zA-Z]` are disjoint,
the greedy match never backtracks, so the regex is equivalent to the
deterministic scanner below. -/

/-- Characters allowed in the CSI parameter section: `[0-9;]`. -/
def isParamChar (c : Char) : Bool :=
  ('0' ≤ c && c ≤ '9') || c = ';'

/-- Final byte class of the regex: `[a-zA-Z]`. -/
def isCsiFinal (c : Char) : Bool :=
  ('a' ≤ c && c ≤ 'z') || ('A' ≤ c && c ≤ 'Z')

/-- Consume `[0-9;]*` then one `[a-zA-Z]`; return the rest of the
input on success, `none` if the pattern cannot complete here. -/
def skipParams : List Char → Option (List Char)
  | [] => none
  | c :: cs =>
    if isParamChar c then skipParams cs
    else if isCsiFinal c then some cs
    else none

theorem skipParams_length :
    ∀ cs rest, skipParams cs = some rest → rest.length < cs.length := by
  intro cs
  induction cs with
  | nil => intro rest h; simp [skipParams] at h
  | cons c cs ih =>
    intro rest h
    simp only [skipParams] at h
    by_cases hp : isParamChar c
    · simp [hp] at h
      exact Nat.lt_trans (ih rest h) (Nat.lt_succ_self _)
    · by_cases hf : isCsiFinal c
      · simp [hp, hf] at h
        subst h; exact Nat.lt_succ_self _
      · simp [hp, hf] at h

/-- The escape character `\x1b`. -/
def escChar : Char := Char.ofNat 27

/-- `stripAnsi` on character lists: the global replace of
`/\x1b\[[0-9;]*[a-zA-Z]/` by the empty string. -/
def stripAnsi : List Char → List Char
  | [] => []
  | c :: cs =>
    if c = escChar then
      match h : cs with
      | '[' :: cs2 =>
        match h2 : skipParams cs2 with
        | some rest => stripAnsi rest
        | none => c :: stripAnsi cs
      | _ => c :: stripAnsi cs
    else c :: stripAnsi cs
termination_by l => l.length
decreasing_by
  · simp_all
    have := skipParams_length cs2 rest h2
    omega
  · simp_all
  · simp_all
  · simp

/-! ## trim: JavaScript `String.prototype.trim` removes leading and
trailing whitespace. -/

/-- The whitespace class relevant to terminal output
(space, tab, newline, carriage return, vertical tab, form feed). -/
def isJsWs (c : Char) : Bool :=
  c = ' ' || c = '\t' || c = '\n' || c = '\r' ||
  c = Char.ofNat 11 || c = Char.ofNat 12

/-- `String.prototype.trim` on character lists. -/
def jsTrim (s : List Char) : List Char :=
  ((s.dropWhile isJsWs).reverse.dropWhile isJsWs).reverse

/-- The cleaning applied by `execInPty` before returning output:
`stripAnsi(output).trim()`. -/
def cleanOutput (s : List Char) : List Char :=
  jsTrim (stripAnsi s)

/-- Strings in which every occurrence of `ESC` begins a complete CSI
sequence (the class the source regex is designed to remove). -/
inductive CsiWellFormed : List Char → Prop
  | nil : CsiWellFormed []
  | cons {c : Char} {cs : List Char} :
      c ≠ escChar → CsiWellFormed cs → CsiWellFormed (c :: cs)
  | csi {ps : List Char} {t : Char} {cs : List Char} :
      (∀ c ∈ ps, isParamChar c = true) → isCsiFinal t = true →
      CsiWellFormed cs → CsiWellFormed (escChar :: '[' :: (ps ++ t :: cs))

/-! ## execInPty (src/main/utils/shell.ts, lines 71–146)

The promise body registers a timeout callback, spawns the PTY, and
installs `onData` / `onExit` handlers guarded by `hasExited`.  Exactly
one of three first events settles the promise: the synchronous spawn
throw, the timeout callback firing before exit, or the exit callback
firing before the timeout.  `output` is the concatenation of all data
received before that event. -/

/-- The possible first settling event of one `execInPty` call. -/
inductive ExecEvent : Type
  /-- `pty.spawn` threw synchronously. -/
  | spawnError : ExecEvent
  /-- The timeout fired before the process exited; `output` is the
  data collected so far. -/
  | timeoutFirst (output : List Char) : ExecEvent
  /-- The process exited (exit code `exitCode`) before the timeout;
  `output` is all data collected. -/
  | exitFirst (exitCode : Nat) (output : List Char) : ExecEvent

/-- How one `execInPty` call settles. -/
inductive ExecResult : Type
  /-- `resolve(cleaned)`. -/
  | resolved (out : List Char) : ExecResult
  /-- `reject(new Error(msg))`. -/
  | rejected (msg : List Char) : ExecResult
  /-- `reject(error)` with the spawn error itself. -/
  | rejectedSpawnError : ExecResult
deriving DecidableEq

/-- Message of the rejection on natural non-zero exit:
`` `Command exited with code ${exitCode}` ``. -/
def exitMsg (exitCode : Nat) : List Char :=
  ("Command exited with code " ++ Nat.repr exitCode).data

/-- `execInPty` settlement as a function of the kill-on-timeout flag
and the first event, from the source's timeout callback (lines
95–109), `onExit` handler (lines 128–139) and catch block (140–144). -/
def execInPty (killOnTimeout : Bool) : ExecEvent → ExecResult
  | .spawnError => .rejectedSpawnError
  | .timeoutFirst output =>
    if killOnTimeout then .resolved (cleanOutput output)
    else .rejected "Detection timeout".data
  | .exitFirst exitCode output =>
    if exitCode = 0 then .resolved (cleanOutput output)
    else .rejected (exitMsg exitCode)

/-- Whether the call runs the process-tree Terminator
(`killProcessTree(ptyProcess)`): only the timeout callback does. -/
def execKillsTree : ExecEvent → Bool
  | .timeoutFirst _ => true
  | _ => false

/-- The output accumulated by the `onData` handler before the
settling event. -/
def eventOutput : ExecEvent → List Char
  | .spawnError => []
  | .timeoutFirst o => o
  | .exitFirst _ o => o

/-- Whether the call cancels its timeout timer (`clearTimeout`): the
exit handler and the catch block do; the timeout path has already
fired. -/
def execClearsTimer : ExecEvent → Bool
  | .spawnError => true
  | .exitFirst _ _ => true
  | .timeoutFirst _ => false

/-- The shells `execInPty` attempts to spawn, paired with whether the
spawn error escapes to `reject`: exactly one attempt, no fallback
retry (the catch block at lines 140–144 rejects directly).
`fails s` says whether `pty.spawn` throws for shell `s`. -/
def execSpawnAttempts (shell : String) (fails : String → Bool) :
    List String × Bool :=
  ([shell], fails shell)

/-! ## Environment builder

JavaScript objects used as string maps: `{...a, ...b}` lets the later
spread win, `{...a, k: v}` sets `k` unconditionally. -/

/-- A string map (JavaScript object of environment variables). -/
def Env : Type := String → Option String

/-- The empty object. -/
def emptyEnv : Env := fun _ => none

/-- `{...base, ...upd}`. -/
def envExtend (base upd : Env) : Env :=
  fun k =>
    match upd k with
    | some v => some v
    | none => base k

/-- `{...base, key: val}`. -/
def envSet (base : Env) (key val : String) : Env :=
  fun k => if k = key then some val else base k

/-- JavaScript `x || d` on an environment variable: `undefined` and
the empty string are both falsy. -/
def jsOr (v : Option String) (d : String) : String :=
  match v with
  | some s => if s = "" then d else s
  | none => d

/-- `getEnvForCommand` (src/main/utils/shell.ts lines 46–54):
`{...process.env, PATH: getEnhancedPath(), LANG: …, LC_ALL: …,
...additionalEnv}`.  `enhancedPath` stands for the value of
`getEnhancedPath()`. -/
def getEnvForCommand (procEnv : Env) (enhancedPath : String)
    (additionalEnv : Env) : Env :=
  envExtend
    (envSet
      (envSet
        (envSet procEnv "PATH" enhancedPath)
        "LANG" (jsOr (procEnv "LANG") "en_US.UTF-8"))
      "LC_ALL" (jsOr (procEnv "LC_ALL") (jsOr (procEnv "LANG") "en_US.UTF-8")))
    additionalEnv

/-- The environment of a `PtyManager.create` spawn (PtyManager.ts
lines 145–151): `{...process.env, ...options.env,
PATH: getEnhancedPath(), TERM: 'xterm-256color',
COLORTERM: 'truecolor'}`. -/
def createSpawnEnv (procEnv optsEnv : Env) (enhancedPath : String) : Env :=
  envSet
    (envSet
      (envSet (envExtend procEnv optsEnv) "PATH" enhancedPath)
      "TERM" "xterm-256color")
    "COLORTERM" "truecolor"

/-- The environment of an `execInPty` spawn (shell.ts lines 117–121):
`{...getEnvForCommand(), TERM: 'xterm-256color',
COLORTERM: 'truecolor'}` — no caller-supplied overrides exist on this
path. -/
def execSpawnEnv (procEnv : Env) (enhancedPath : String) : Env :=
  envSet
    (envSet (getEnvForCommand procEnv enhancedPath emptyEnv)
      "TERM" "xterm-256color")
    "COLORTERM" "truecolor"

/-! ## getEnhancedPath (PtyManager.ts lines 65–101) -/

/-- JavaScript `String.prototype.split` with a one-character
separator; `''.split(sep)` is `['']`. -/
def jsSplit (d : Char) : List Char → List (List Char)
  | [] => [[]]
  | c :: cs =>
    match jsSplit d cs with
    | [] => [[]]
    | x :: xs => if c = d then [] :: x :: xs else (c :: x) :: xs

/-- `Array.prototype.join` with a one-character separator. -/
def jsJoin (d : Char) : List (List Char) → List Char
  | [] => []
  | [x] => x
  | x :: xs => x ++ d :: jsJoin d xs

/-- `[...new Set(l)]`: deduplication keeping first occurrences in
insertion order. -/
def jsSetDedup {α : Type} [DecidableEq α] : List α → List α
  | [] => []
  | x :: xs => x :: (jsSetDedup xs).filter (fun y => decide (y ≠ x))

/-- `path.delimiter`. -/
def pathDelimiter (isWin : Bool) : Char := if isWin then ';' else ':'

/-- The synthesized Unix install directories (lines 81–98);
`join(home, …)` modelled as slash-separated concatenation. -/
def unixAdditionalPaths (home : List Char) : List (List Char) :=
  [ "/usr/local/bin".data,
    "/opt/homebrew/bin".data,
    "/opt/homebrew/sbin".data,
    home ++ "/.nvm/versions/node/current/bin".data,
    home ++ "/.npm-global/bin".data,
    home ++ "/Library/pnpm".data,
    home ++ "/.local/share/pnpm".data,
    home ++ "/.bun/bin".data,
    home ++ "/.cargo/bin".data,
    home ++ "/.local/share/mise/shims".data,
    home ++ "/.local/bin".data ]

/-- The synthesized Windows install directories (lines 71–75). -/
def winAdditionalPaths (home : List Char) : List (List Char) :=
  [ home ++ "\\AppData\\Roaming\\npm".data,
    home ++ "\\.volta\\bin".data,
    home ++ "\\scoop\\shims".data ]

/-- The synthesized directory list for the current platform. -/
def additionalPaths (isWin : Bool) (home : List Char) : List (List Char) :=
  if isWin then winAdditionalPaths home else unixAdditionalPaths home

/-- The entry list before joining:
`[...new Set([...additionalPaths, ...currentPath.split(delimiter)])]`. -/
def enhancedPathEntries (isWin : Bool) (home currentPath : List Char) :
    List (List Char) :=
  jsSetDedup (additionalPaths isWin home ++ jsSplit (pathDelimiter isWin) currentPath)

/-- `getEnhancedPath`, parameterized by platform, resolved home
directory and the inherited `process.env.PATH` (empty string when
unset). -/
def getEnhancedPath (isWin : Bool) (home currentPath : List Char) : List Char :=
  jsJoin (pathDelimiter isWin) (enhancedPathEntries isWin home currentPath)

/-! ## killProcessTree (src/main/utils/processUtils.ts lines 26–70) -/

/-- The `target` argument: a bare pid number, or a process handle
(`ChildProcess` / `IPty` / `ProcessLike`) with an optional pid;
`hasKill` records the runtime `'kill' in target` check. -/
inductive KillTarget : Type
  | pidNumber (pid : Nat)
  | handle (pid : Option Nat) (hasKill : Bool)
deriving DecidableEq

/-- Pid extraction (lines 31–36). -/
def targetPid : KillTarget → Option Nat
  | .pidNumber p => some p
  | .handle p _ => p

/-- The `if (!pid)` test: `undefined` and `0` are both falsy. -/
def pidResolvable (t : KillTarget) : Bool :=
  match targetPid t with
  | none => false
  | some p => decide (p ≠ 0)

/-- One OS-level termination attempt. -/
inductive KillAction : Type
  /-- Windows `taskkill /pid p /t /f` via `spawnSync`. -/
  | taskkill (pid : Nat)
  /-- POSIX `process.kill(-pid, signal)`: signal the process group. -/
  | signalGroup (pid : Nat)
  /-- `target.kill(signal)`: the handle's own kill method. -/
  | signalHandle
  /-- POSIX `process.kill(pid, signal)`: raw signal on the bare pid. -/
  | signalPid (pid : Nat)
deriving DecidableEq

/-- Whether `'kill' in target` holds (false for a bare pid number). -/
def hasKillMethod : KillTarget → Bool
  | .pidNumber _ => false
  | .handle _ hk => hk

/-- The sequence of termination attempts `killProcessTree` makes.
`groupKillOk` says whether the process-group signal succeeds.  Every
attempt in the source is wrapped in try/catch, so the function is
total over all inputs — it never raises, whatever fails. -/
def killProcessTree (isWin : Bool) (t : KillTarget) (groupKillOk : Bool) :
    List KillAction :=
  if pidResolvable t = false then
    match t with
    | .pidNumber _ => []
    | .handle _ true => [.signalHandle]
    | .handle _ false => []
  else
    let p := (targetPid t).getD 0
    if isWin then [.taskkill p]
    else if groupKillOk then [.signalGroup p]
    else
      match t with
      | .pidNumber _ => [.signalGroup p, .signalPid p]
      | .handle _ true => [.signalGroup p, .signalHandle]
      | .handle _ false => [.signalGroup p, .signalPid p]

/-! ## PtyManager (src/main/services/terminal/PtyManager.ts) -/

/-- One registered session: the creation-time working directory is
captured in the session record. -/
structure PtySession where
  cwd : List Char
deriving DecidableEq

/-- The manager: `sessions` is a `Map` (insertion-ordered association
list keyed by the id string), `counter` backs id generation. -/
structure PtyManager where
  sessions : List (String × PtySession)
  counter : Nat
deriving DecidableEq

/-- `` `pty-${++this.counter}` ``. -/
def mkSessionId (n : Nat) : String := "pty-" ++ Nat.repr n

/-- The registered id strings. -/
def PtyManager.keys (m : PtyManager) : List String := m.sessions.map Prod.fst

/-- `create` (lines 107–194): a fresh id from the incremented
counter; the session is registered under it after a successful
spawn. -/
def PtyManager.create (m : PtyManager) (cwd : List Char) : String × PtyManager :=
  let n := m.counter + 1
  let id := mkSessionId n
  (id, { sessions := m.sessions ++ [(id, ⟨cwd⟩)], counter := n })

/-- The observable side effect of an operation on a session's pty. -/
inductive SessionEffect : Type
  | wrote (id : String) (data : List Char)
  | resized (id : String) (cols rows : Nat)
  | killed (id : String)
deriving DecidableEq

/-- `write` (lines 196–201): forwards to the pty when the id is
registered; otherwise nothing happens. -/
def PtyManager.write (m : PtyManager) (id : String) (data : List Char) :
    PtyManager × Option SessionEffect :=
  match m.sessions.lookup id with
  | some _ => (m, some (.wrote id data))
  | none => (m, none)

/-- `resize` (lines 203–208). -/
def PtyManager.resize (m : PtyManager) (id : String) (cols rows : Nat) :
    PtyManager × Option SessionEffect :=
  match m.sessions.lookup id with
  | some _ => (m, some (.resized id cols rows))
  | none => (m, none)

/-- `destroy` (lines 210–226): when registered, kill the process
(tree on Windows) and delete the map entry; otherwise nothing. -/
def PtyManager.destroy (m : PtyManager) (id : String) :
    PtyManager × Option SessionEffect :=
  match m.sessions.lookup id with
  | some _ =>
    ({ m with sessions := m.sessions.filter (fun p => decide (p.1 ≠ id)) },
     some (.killed id))
  | none => (m, none)

/-- `workdir.replace(/\\/g, '/').toLowerCase()`. -/
def normalizePath (s : List Char) : List Char :=
  (s.map (fun c => if c = '\\' then '/' else c)).map Char.toLower

/-- The match test of `destroyByWorkdir` (lines 238–241): normalized
equality, or the normalized cwd starts with the normalized workdir
followed by `/`. -/
def workdirMatches (workdir cwd : List Char) : Bool :=
  let nw := normalizePath workdir
  let nc := normalizePath cwd
  decide (nc = nw) || (nw ++ ['/']).isPrefixOf nc

/-- `destroyByWorkdir` (lines 234–245): iterate over the entries,
destroying each whose creation-time cwd matches. -/
def PtyManager.destroyByWorkdir (m : PtyManager) (workdir : List Char) :
    PtyManager :=
  m.sessions.foldl
    (fun acc p =>
      if workdirMatches workdir p.2.cwd then (acc.destroy p.1).1 else acc)
    m

/-- The shells `PtyManager.create` attempts to spawn, paired with
whether a spawn error escapes to the caller: on POSIX a failed spawn
is retried once with the fallback shell when it differs
(lines 153–179). -/
def createSpawnAttempts (isWin : Bool) (shell fallbackShell : String)
    (fails : String → Bool) : List String × Bool :=
  if fails shell = false then ([shell], false)
  else if isWin then ([shell], true)
  else if fallbackShell ≠ shell then ([shell, fallbackShell], fails fallbackShell)
  else ([shell], true)


/-- The ids destroyed by a `destroyByWorkdir` pass over entry list
`l`: keys of the entries whose cwd matches. -/
def matchedKeys (wd : List Char) (l : List (String × PtySession)) :
    List String :=
  (l.filter (fun p => workdirMatches wd p.2.cwd)).map Prod.fst

/-- Registry invariant maintained by the manager: ids are pairwise
distinct and every registered id was produced by an earlier value of
the counter. -/
def PtyManager.Wf (m : PtyManager) : Prop :=
  m.keys.Nodup ∧
  ∀ p ∈ m.sessions, ∃ k, 1 ≤ k ∧ k ≤ m.counter ∧ p.1 = mkSessionId k

/-- Decimal digits of `n`, most significant first (specification
companion of `Nat.toDigitsCore`, used to analyse `Nat.repr`). -/
def reprDigits (n : Nat) : List Char :=
  if n < 10 then [Nat.digitChar n]
  else reprDigits (n / 10) ++ [Nat.digitChar (n % 10)]
decreasing_by
  exact Nat.div_lt_self (by omega) (by omega)

/-- Value read back from a decimal digit string. -/
def digitsVal (ds : List Char) : Nat :=
  ds.foldl (fun a c => 10 * a + (c.toNat - 48)) 0

/-! ## Supporting lemmas -/

theorem stripAnsi_nil : stripAnsi [] = [] :=
  stripAnsi.eq_1

theorem stripAnsi_cons_ne {c : Char} {cs : List Char} (h : c ≠ escChar) :
    stripAnsi (c :: cs) = c :: stripAnsi cs := by
  cases cs with
  | nil =>
    rw [stripAnsi.eq_3]
    · rw [ite_self]
    · intro cs2 hcs; cases hcs
  | cons d ds =>
    by_cases hd : d = '['
    · subst hd
      rw [stripAnsi.eq_2, if_neg h]
    · rw [stripAnsi.eq_3]
      · rw [ite_self]
      · intro cs2 hcs
        injection hcs with h1 _
        exact hd h1

theorem stripAnsi_csi {cs2 rest : List Char} (h : skipParams cs2 = some rest) :
    stripAnsi (escChar :: '[' :: cs2) = stripAnsi rest := by
  rw [stripAnsi.eq_2, if_pos rfl]
  split
  · rename_i r h2
    rw [h] at h2
    injection h2 with h3
    rw [h3]
  · rename_i h2
    rw [h] at h2
    cases h2

theorem stripAnsi_csi_fail {cs2 : List Char} (h : skipParams cs2 = none) :
    stripAnsi (escChar :: '[' :: cs2) = escChar :: stripAnsi ('[' :: cs2) := by
  rw [stripAnsi.eq_2, if_pos rfl]
  split
  · rename_i r h2
    rw [h] at h2
    cases h2
  · rfl

theorem stripAnsi_esc_nil : stripAnsi [escChar] = [escChar] := by
  rw [stripAnsi.eq_3]
  · rw [ite_self, stripAnsi_nil]
  · intro cs2 hcs; cases hcs

theorem stripAnsi_esc_cons {c : Char} {cs : List Char} (h : c ≠ '[') :
    stripAnsi (escChar :: c :: cs) = escChar :: stripAnsi (c :: cs) := by
  rw [stripAnsi.eq_3]
  · rw [ite_self]
  · intro cs2 hcs
    injection hcs with h1 _
    exact h h1

/-! ### Well-formed CSI inputs

For output in which every escape character introduces a complete CSI
sequence `ESC [ [0-9;]* letter`, the cleaning removes every escape
character.  (Outputs with other escape classes — OSC title sequences,
charset selection — or with split/reassembled CSI fragments are not
fully cleaned; see the counterexample for C5.) -/

/-- Final bytes are letters, parameter bytes are digits or `;`:
the two classes are disjoint. -/
theorem csiFinal_not_param {c : Char} (h : isCsiFinal c = true) :
    isParamChar c = false := by
  by_contra hp
  rw [Bool.not_eq_false] at hp
  simp only [isCsiFinal, Bool.or_eq_true, Bool.and_eq_true, decide_eq_true_eq] at h
  simp only [isParamChar, Bool.or_eq_true, Bool.and_eq_true, decide_eq_true_eq] at hp
  rcases hp with ⟨_, hp2⟩ | hp
  · rcases h with ⟨h1, _⟩ | ⟨h1, _⟩
    · exact absurd (le_trans h1 hp2) (by decide)
    · exact absurd (le_trans h1 hp2) (by decide)
  · subst hp
    revert h
    decide

theorem skipParams_append {ps : List Char} {t : Char} {cs : List Char}
    (hps : ∀ c ∈ ps, isParamChar c = true) (ht : isCsiFinal t = true) :
    skipParams (ps ++ t :: cs) = some cs := by
  induction ps with
  | nil =>
    simp only [List.nil_append, skipParams]
    rw [csiFinal_not_param ht]
    simp [ht]
  | cons p ps ih =>
    have hp := hps p (List.mem_cons_self p ps)
    simp only [List.cons_append, skipParams, hp, if_true]
    exact ih (fun c hc => hps c (List.mem_cons_of_mem _ hc))


theorem stripAnsi_no_esc {s : List Char} (h : CsiWellFormed s) :
    escChar ∉ stripAnsi s := by
  induction h with
  | nil =>
    rw [stripAnsi_nil]
    exact List.not_mem_nil _
  | cons hne _ ih =>
    rw [stripAnsi_cons_ne hne]
    intro hmem
    rcases List.mem_cons.mp hmem with h1 | h1
    · exact hne h1.symm
    · exact ih h1
  | csi hps ht _ ih =>
    rw [stripAnsi_csi (skipParams_append hps ht)]
    exact ih

theorem mem_jsTrim {c : Char} {s : List Char} (h : c ∈ jsTrim s) : c ∈ s := by
  unfold jsTrim at h
  rw [List.mem_reverse] at h
  have h1 := (List.dropWhile_sublist _).mem h
  rw [List.mem_reverse] at h1
  exact (List.dropWhile_sublist _).mem h1

theorem cleanOutput_no_esc {s : List Char} (h : CsiWellFormed s) :
    escChar ∉ cleanOutput s :=
  fun hmem => stripAnsi_no_esc h (mem_jsTrim hmem)

theorem stripAnsi_of_no_esc {s : List Char} (h : escChar ∉ s) :
    stripAnsi s = s := by
  induction s with
  | nil => exact stripAnsi_nil
  | cons c cs ih =>
    rw [stripAnsi_cons_ne (fun hc => h (hc ▸ List.mem_cons_self c cs))]
    rw [ih (fun hm => h (List.mem_cons_of_mem _ hm))]

/-! ### Injectivity of `Nat.repr`, hence of the session id strings -/

theorem toDigitsCore_eq :
    ∀ (f n : Nat) (ds : List Char), n < f →
      Nat.toDigitsCore 10 f n ds = reprDigits n ++ ds := by
  intro f
  induction f with
  | zero => intro n ds h; omega
  | succ f ih =>
    intro n ds h
    by_cases h10 : n < 10
    · have hdiv : n / 10 = 0 := Nat.div_eq_of_lt h10
      have hmod : n % 10 = n := Nat.mod_eq_of_lt h10
      rw [reprDigits]
      simp [Nat.toDigitsCore, hdiv, hmod, h10]
    · have hdiv : n / 10 ≠ 0 := by
        intro hc
        have := Nat.div_add_mod n 10
        have : n % 10 < 10 := Nat.mod_lt n (by omega)
        omega
      rw [reprDigits]
      simp only [Nat.toDigitsCore, hdiv, if_neg, if_false, h10]
      rw [ih (n / 10) _ (by omega)]
      simp

theorem digitChar_toNat : ∀ n, n < 10 → (Nat.digitChar n).toNat = n + 48 := by
  decide

theorem digitsVal_append (ds : List Char) (c : Char) :
    digitsVal (ds ++ [c]) = 10 * digitsVal ds + (c.toNat - 48) := by
  simp [digitsVal, List.foldl_append]

theorem digitsVal_reprDigits (n : Nat) : digitsVal (reprDigits n) = n := by
  induction n using Nat.strong_induction_on with
  | _ n ih =>
    by_cases h10 : n < 10
    · rw [reprDigits, if_pos h10]
      simp [digitsVal, digitChar_toNat n h10]
    · rw [reprDigits, if_neg h10]
      rw [digitsVal_append]
      rw [ih (n / 10) (Nat.div_lt_self (by omega) (by omega))]
      rw [digitChar_toNat (n % 10) (Nat.mod_lt _ (by omega))]
      omega

theorem repr_eq_reprDigits (n : Nat) : (Nat.repr n).data = reprDigits n := by
  show (Nat.toDigits 10 n).asString.data = reprDigits n
  rw [Nat.toDigits, toDigitsCore_eq (n + 1) n [] (Nat.lt_succ_self n)]
  simp [List.asString]

theorem repr_injective {a b : Nat} (h : Nat.repr a = Nat.repr b) : a = b := by
  have hd : reprDigits a = reprDigits b := by
    rw [← repr_eq_reprDigits, ← repr_eq_reprDigits, h]
  have hv := congrArg digitsVal hd
  rwa [digitsVal_reprDigits, digitsVal_reprDigits] at hv

theorem mkSessionId_injective {a b : Nat}
    (h : mkSessionId a = mkSessionId b) : a = b := by
  have hd := congrArg String.data h
  simp only [mkSessionId, String.data_append] at hd
  exact repr_injective (String.ext (List.append_cancel_left hd))

/-! ### Registry lemmas -/

theorem lookup_none_iff {l : List (String × PtySession)} {id : String} :
    List.lookup id l = none ↔ id ∉ l.map Prod.fst := by
  induction l with
  | nil => simp [List.lookup]
  | cons p l ih =>
    simp only [List.lookup, List.map_cons, List.mem_cons, not_or]
    by_cases hk : id = p.1
    · have : (id == p.1) = true := beq_iff_eq.mpr hk
      rw [this]
      simp [hk]
    · have : (id == p.1) = false := beq_eq_false_iff_ne.mpr hk
      rw [this]
      simp [hk, ih]

theorem destroy_sessions (m : PtyManager) (id : String) :
    ((m.destroy id).1).sessions =
      m.sessions.filter (fun p => decide (p.1 ≠ id)) := by
  unfold PtyManager.destroy
  cases h : List.lookup id m.sessions with
  | some s => simp
  | none =>
    simp only []
    rw [List.filter_eq_self.mpr]
    intro p hp
    have hnm := lookup_none_iff.mp h
    simp only [decide_eq_true_eq]
    intro hc
    exact hnm (hc ▸ List.mem_map_of_mem Prod.fst hp)

theorem destroy_counter (m : PtyManager) (id : String) :
    ((m.destroy id).1).counter = m.counter := by
  unfold PtyManager.destroy
  cases h : List.lookup id m.sessions <;> rfl

theorem destroyByWorkdir_foldl (wd : List Char) :
    ∀ (l : List (String × PtySession)) (acc : PtyManager),
      (l.foldl
        (fun acc p =>
          if workdirMatches wd p.2.cwd then (acc.destroy p.1).1 else acc)
        acc).sessions
        = acc.sessions.filter (fun q => decide (q.1 ∉ matchedKeys wd l)) := by
  intro l
  induction l with
  | nil =>
    intro acc
    simp [matchedKeys]
  | cons p l ih =>
    intro acc
    simp only [List.foldl_cons]
    by_cases hm : workdirMatches wd p.2.cwd
    · rw [if_pos hm, ih, destroy_sessions, List.filter_filter]
      apply List.filter_congr
      intro q _
      have hmk : matchedKeys wd (p :: l) = p.1 :: matchedKeys wd l := by
        simp [matchedKeys, hm]
      rw [hmk]
      by_cases h1 : q.1 = p.1 <;> by_cases h2 : q.1 ∈ matchedKeys wd l <;>
        simp [h1, h2]
    · rw [if_neg hm, ih]
      apply List.filter_congr
      intro q _
      have hmk : matchedKeys wd (p :: l) = matchedKeys wd l := by
        simp [matchedKeys, hm]
      rw [hmk]

/-! ### Deduplicated path-entry lemmas -/

theorem jsSetDedup_nodup {α : Type} [DecidableEq α] (l : List α) :
    (jsSetDedup l).Nodup := by
  induction l with
  | nil => exact List.nodup_nil
  | cons x xs ih =>
    refine List.Nodup.cons ?_ (List.Nodup.filter _ ih)
    intro hx
    rcases List.mem_filter.mp hx with ⟨_, hpred⟩
    simp at hpred

theorem mem_jsSetDedup {α : Type} [DecidableEq α] {a : α} {l : List α} :
    a ∈ jsSetDedup l ↔ a ∈ l := by
  induction l with
  | nil => simp [jsSetDedup]
  | cons x xs ih =>
    simp only [jsSetDedup, List.mem_cons, List.mem_filter, ih,
      decide_eq_true_eq]
    by_cases hax : a = x
    · simp [hax]
    · simp [hax]

theorem jsSetDedup_append {α : Type} [DecidableEq α] (a b : List α) :
    jsSetDedup (a ++ b) =
      jsSetDedup a ++ (jsSetDedup b).filter (fun y => decide (y ∉ a)) := by
  induction a with
  | nil =>
    simp only [List.nil_append, jsSetDedup]
    rw [List.filter_eq_self.mpr]
    intro y _
    simp
  | cons x a ih =>
    simp only [List.cons_append, jsSetDedup, List.append_eq]
    rw [ih, List.filter_append, List.filter_filter]
    congr 2
    apply List.filter_congr
    intro q _
    by_cases h1 : q = x <;> by_cases h2 : q ∈ a <;> simp [h1, h2]

theorem jsJoin_cons_cons (d : Char) (x y : List Char)
    (ys : List (List Char)) :
    jsJoin d (x :: y :: ys) = x ++ d :: jsJoin d (y :: ys) := rfl

theorem infix_jsJoin {d : Char} {e : List Char} :
    ∀ {l : List (List Char)}, e ∈ l → e <:+: jsJoin d l := by
  intro l
  induction l with
  | nil => intro h; cases h
  | cons x xs ih =>
    intro h
    rcases List.mem_cons.mp h with h1 | h1
    · subst h1
      cases xs with
      | nil => exact List.infix_refl _
      | cons y ys =>
        exact ⟨[], d :: jsJoin d (y :: ys), by rw [jsJoin_cons_cons]; simp⟩
    · cases xs with
      | nil => cases h1
      | cons y ys =>
        rcases ih h1 with ⟨s, t, hst⟩
        refine ⟨x ++ d :: s, t, ?_⟩
        rw [jsJoin_cons_cons, ← hst]
        simp

theorem jsJoin_cons_ne_nil {d : Char} {x : List Char} {xs : List (List Char)}
    (hx : x ≠ []) : jsJoin d (x :: xs) ≠ [] := by
  cases xs with
  | nil => exact hx
  | cons y ys =>
    rw [jsJoin_cons_cons]
    simp [hx]

theorem write_of_lookup_none {m : PtyManager} {id : String}
    (h : List.lookup id m.sessions = none) (data : List Char) :
    m.write id data = (m, none) := by
  unfold PtyManager.write
  rw [h]

theorem resize_of_lookup_none {m : PtyManager} {id : String}
    (h : List.lookup id m.sessions = none) (cols rows : Nat) :
    m.resize id cols rows = (m, none) := by
  unfold PtyManager.resize
  rw [h]

theorem destroy_of_lookup_none {m : PtyManager} {id : String}
    (h : List.lookup id m.sessions = none) : m.destroy id = (m, none) := by
  unfold PtyManager.destroy
  rw [h]

theorem enhancedPathEntries_cons {isWin : Bool} {home : List Char}
    (currentPath : List Char) {x : List Char} {l : List (List Char)}
    (h : additionalPaths isWin home = x :: l) :
    ∃ t, enhancedPathEntries isWin home currentPath = x :: t := by
  rw [enhancedPathEntries, h]
  exact ⟨_, rfl⟩

/-- The freshly constructed manager (`sessions = new Map()`,
`counter = 0`) satisfies the registry invariant. -/
theorem Wf_initial : (PtyManager.mk [] 0).Wf :=
  ⟨List.nodup_nil, fun p hp => absurd hp (List.not_mem_nil p)⟩

/-- `destroy` (and the identical deletion performed by the `onExit`
handler) preserves the registry invariant. -/
theorem Wf_destroy (m : PtyManager) (id : String) (h : m.Wf) :
    ((m.destroy id).1).Wf := by
  obtain ⟨hnd, hids⟩ := h
  unfold PtyManager.Wf
  refine ⟨?_, ?_⟩
  · show (((m.destroy id).1).sessions.map Prod.fst).Nodup
    rw [destroy_sessions]
    exact List.Nodup.sublist
      (List.Sublist.map Prod.fst (List.filter_sublist m.sessions)) hnd
  · intro p hp
    rw [destroy_sessions] at hp
    rcases hids p (List.mem_of_mem_filter hp) with ⟨k, hk1, hk2, hk3⟩
    rw [destroy_counter]
    exact ⟨k, hk1, hk2, hk3⟩

/-! ## Claim theorems -/

/-- C1: when the timeout fires before the process exits, `execInPty`
terminates the process tree via the Terminator on both flag values;
with `killOnTimeout = true` it resolves with the collected output,
ANSI-stripped and whitespace-trimmed (even when empty), and with
`killOnTimeout = false` it rejects with the timeout failure. -/
theorem C1_timeout_semantics (o : List Char) :
    execKillsTree (.timeoutFirst o) = true ∧
    execInPty true (.timeoutFirst o) = .resolved (cleanOutput o) ∧
    execInPty false (.timeoutFirst o) = .rejected "Detection timeout".data :=
  ⟨rfl, rfl, rfl⟩

/-- C2, as stated, is false on the code: on natural exit with code 3
the call rejects with `Error("Command exited with code 3")`; the
cleaned output (here `"hello"`, collected before exit) is computed in
the exit handler but not attached to the failure in any form. -/
theorem C2_counterexample :
    execInPty false (.exitFirst 3 "hello".data) =
      .rejected "Command exited with code 3".data ∧
    ¬ "hello".data <:+: "Command exited with code 3".data := by
  constructor
  · decide
  · decide

/-- C2 (amended): on natural exit with non-zero code `c`, `execInPty`
rejects with a typed failure whose message states the exit code
(`` `Command exited with code ${c}` ``); the cleaned output is
discarded, not carried on the failure. -/
theorem C2_nonzero_exit (k : Bool) (c : Nat) (o : List Char) (h : c ≠ 0) :
    execInPty k (.exitFirst c o) = .rejected (exitMsg c) := by
  simp [execInPty, h]

theorem C2_nonzero_exit_witness :
    execInPty false (.exitFirst 3 "hello".data) =
      .rejected "Command exited with code 3".data :=
  (C2_nonzero_exit false 3 "hello".data (by decide)).trans (by decide)

/-- C5, as stated, is false on the code: the regex removes only CSI
sequences `ESC [ params letter`.  An OSC sequence
(`ESC ] 0 ; t BEL`, as emitted by title-setting shells) survives the
cleaning, so an output containing it is resolved with the escape
character still present. -/
theorem C5_counterexample :
    execInPty true
        (.timeoutFirst [escChar, ']', '0', ';', 't', Char.ofNat 7]) =
      .resolved (cleanOutput [escChar, ']', '0', ';', 't', Char.ofNat 7]) ∧
    escChar ∈ cleanOutput [escChar, ']', '0', ';', 't', Char.ofNat 7] := by
  constructor
  · rfl
  · have h1 : stripAnsi [escChar, ']', '0', ';', 't', Char.ofNat 7] =
        [escChar, ']', '0', ';', 't', Char.ofNat 7] := by
      rw [stripAnsi_esc_cons (by decide), stripAnsi_of_no_esc (by decide)]
    rw [cleanOutput, h1]
    decide

/-- C5 (amended): on every exit path, whenever the accumulated output
is made of ordinary characters and complete CSI sequences
(`ESC [ [0-9;]* letter` — colour escapes in particular), any resolved
output of `execInPty` contains no escape character at all.  Outputs
containing other escape classes (OSC, charset selection) or split CSI
fragments are not fully cleaned. -/
theorem C5_csi_clean (k : Bool) (e : ExecEvent) (out : List Char)
    (hwf : CsiWellFormed (eventOutput e))
    (hres : execInPty k e = .resolved out) :
    escChar ∉ out := by
  cases e with
  | spawnError => cases hres
  | timeoutFirst o =>
    cases k with
    | true =>
      simp only [execInPty, if_true, ExecResult.resolved.injEq] at hres
      subst hres
      exact cleanOutput_no_esc hwf
    | false =>
      simp [execInPty] at hres
  | exitFirst c o =>
    by_cases hc : c = 0
    · subst hc
      simp only [execInPty, if_true, ExecResult.resolved.injEq] at hres
      subst hres
      exact cleanOutput_no_esc hwf
    · simp [execInPty, hc] at hres

theorem C5_csi_clean_witness :
    escChar ∉ cleanOutput [escChar, '[', '3', '1', 'm', 'o', 'k'] :=
  C5_csi_clean false (.exitFirst 0 [escChar, '[', '3', '1', 'm', 'o', 'k'])
    (cleanOutput [escChar, '[', '3', '1', 'm', 'o', 'k'])
    (@CsiWellFormed.csi ['3', '1'] 'm' ['o', 'k']
      (by decide) (by decide)
      (CsiWellFormed.cons (by decide)
        (CsiWellFormed.cons (by decide) CsiWellFormed.nil)))
    rfl

/-- C3: on a registry with pairwise-distinct ids, `destroyByWorkdir`
removes exactly the sessions whose creation-time working directory
matches the given directory — equal after case-folding and `\`→`/`
normalization, or extending it by a `/`-separated suffix — and leaves
every other session registered and unchanged (the surviving list is
precisely the order-preserving filter of the non-matching entries). -/
theorem C3_destroyByWorkdir (m : PtyManager) (wd : List Char)
    (hnd : m.keys.Nodup) :
    ((m.destroyByWorkdir wd).sessions.all
        (fun q => !(workdirMatches wd q.2.cwd))) = true ∧
    (m.destroyByWorkdir wd).sessions =
      m.sessions.filter (fun q => !(workdirMatches wd q.2.cwd)) := by
  have hnd' : (m.sessions.map Prod.fst).Nodup := hnd
  have hfe : (m.destroyByWorkdir wd).sessions =
      m.sessions.filter
        (fun q => decide (q.1 ∉ matchedKeys wd m.sessions)) :=
    destroyByWorkdir_foldl wd m.sessions m
  have hmain : (m.destroyByWorkdir wd).sessions =
      m.sessions.filter (fun q => !(workdirMatches wd q.2.cwd)) := by
    rw [hfe]
    apply List.filter_congr
    intro q hq
    by_cases hm : workdirMatches wd q.2.cwd = true
    · have hin : q.1 ∈ matchedKeys wd m.sessions :=
        List.mem_map_of_mem Prod.fst (List.mem_filter.mpr ⟨hq, hm⟩)
      simp [hin, hm]
    · have hout : q.1 ∉ matchedKeys wd m.sessions := by
        intro hin
        rcases List.mem_map.mp hin with ⟨r, hr, hrq⟩
        rcases List.mem_filter.mp hr with ⟨hrmem, hrmatch⟩
        have heq : r = q := List.inj_on_of_nodup_map hnd' hrmem hq hrq
        rw [heq] at hrmatch
        exact hm hrmatch
      simp [hout, hm]
  refine ⟨?_, hmain⟩
  rw [List.all_eq_true]
  intro q hq
  rw [hmain] at hq
  exact (List.mem_filter.mp hq).2

theorem C3_destroyByWorkdir_witness :
    (((PtyManager.mk
        [("pty-1", ⟨"C:\\work\\app".data⟩),
         ("pty-2", ⟨"C:/work/app/".data⟩),
         ("pty-3", ⟨"C:\\work\\app\\sub".data⟩),
         ("pty-4", ⟨"C:/work/approot".data⟩)] 4).destroyByWorkdir
          "C:\\work\\app".data).sessions.all
      (fun q => !(workdirMatches "C:\\work\\app".data q.2.cwd))) = true ∧
    ((PtyManager.mk
        [("pty-1", ⟨"C:\\work\\app".data⟩),
         ("pty-2", ⟨"C:/work/app/".data⟩),
         ("pty-3", ⟨"C:\\work\\app\\sub".data⟩),
         ("pty-4", ⟨"C:/work/approot".data⟩)] 4).destroyByWorkdir
          "C:\\work\\app".data).sessions =
      (PtyManager.mk
        [("pty-1", ⟨"C:\\work\\app".data⟩),
         ("pty-2", ⟨"C:/work/app/".data⟩),
         ("pty-3", ⟨"C:\\work\\app\\sub".data⟩),
         ("pty-4", ⟨"C:/work/approot".data⟩)] 4).sessions.filter
        (fun q => !(workdirMatches "C:\\work\\app".data q.2.cwd)) :=
  C3_destroyByWorkdir _ "C:\\work\\app".data (by decide)

/-- C4: `write`, `resize` and `destroy` on an unregistered id are
silent no-ops — they return without effect, never raise (the model is
total), and leave the registry unchanged — and destroying the same id
twice equals destroying it once, since the first `destroy` removes
the id and the second then finds nothing. -/
theorem C4_stale_ops (m : PtyManager) (id : String) (data : List Char)
    (cols rows : Nat) (m2 : PtyManager) (id2 : String)
    (h : id ∉ m.keys) :
    m.write id data = (m, none) ∧
    m.resize id cols rows = (m, none) ∧
    m.destroy id = (m, none) ∧
    ((m2.destroy id2).1.destroy id2).1 = (m2.destroy id2).1 := by
  have hlk : List.lookup id m.sessions = none := lookup_none_iff.mpr h
  refine ⟨write_of_lookup_none hlk data, resize_of_lookup_none hlk cols rows,
    destroy_of_lookup_none hlk, ?_⟩
  have hnotin : id2 ∉ ((m2.destroy id2).1).keys := by
    rw [PtyManager.keys, destroy_sessions]
    intro hin
    rcases List.mem_map.mp hin with ⟨p, hp, hpq⟩
    have hpred := (List.mem_filter.mp hp).2
    rw [decide_eq_true_eq] at hpred
    exact hpred hpq
  have hlk2 : List.lookup id2 ((m2.destroy id2).1).sessions = none :=
    lookup_none_iff.mpr hnotin
  rw [destroy_of_lookup_none hlk2]

theorem C4_stale_ops_witness :
    (PtyManager.mk [("pty-1", ⟨"/w".data⟩)] 1).write "pty-9" "x".data =
      (PtyManager.mk [("pty-1", ⟨"/w".data⟩)] 1, none) ∧
    (PtyManager.mk [("pty-1", ⟨"/w".data⟩)] 1).resize "pty-9" 120 40 =
      (PtyManager.mk [("pty-1", ⟨"/w".data⟩)] 1, none) ∧
    (PtyManager.mk [("pty-1", ⟨"/w".data⟩)] 1).destroy "pty-9" =
      (PtyManager.mk [("pty-1", ⟨"/w".data⟩)] 1, none) ∧
    ((((PtyManager.mk [("pty-1", ⟨"/w".data⟩)] 1).destroy
        "pty-1").1.destroy "pty-1").1) =
      (((PtyManager.mk [("pty-1", ⟨"/w".data⟩)] 1).destroy "pty-1").1) :=
  C4_stale_ops _ "pty-9" "x".data 120 40 _ "pty-1" (by decide)

/-- C6: on a well-formed registry (distinct ids, all minted by the
counter), `create` returns the id `` `pty-${counter+1}` `` which is
distinct from every currently-registered id, and the resulting
registry is again well-formed — so an id is never assigned to a
second session while the first bearing it remains registered. -/
theorem C6_create_ids (m : PtyManager) (cwd : List Char) (h : m.Wf) :
    (m.create cwd).1 ∉ m.keys ∧
    (m.create cwd).1 = mkSessionId (m.counter + 1) ∧
    (m.create cwd).2.Wf := by
  obtain ⟨hnd, hids⟩ := h
  have hfresh : mkSessionId (m.counter + 1) ∉ m.keys := by
    intro hin
    rcases List.mem_map.mp hin with ⟨p, hp, hpq⟩
    rcases hids p hp with ⟨k, hk1, hk2, hk3⟩
    have : k = m.counter + 1 := mkSessionId_injective (hk3 ▸ hpq)
    omega
  refine ⟨hfresh, rfl, ?_⟩
  unfold PtyManager.Wf
  refine ⟨?_, ?_⟩
  · show ((m.sessions ++ [(mkSessionId (m.counter + 1), PtySession.mk cwd)]).map
        Prod.fst).Nodup
    rw [List.map_append]
    rw [List.nodup_append]
    refine ⟨hnd, List.nodup_singleton _, ?_⟩
    intro a ha hb
    rcases List.mem_singleton.mp hb with rfl
    exact hfresh ha
  · show ∀ p ∈ m.sessions ++ [(mkSessionId (m.counter + 1), PtySession.mk cwd)],
      ∃ k, 1 ≤ k ∧ k ≤ m.counter + 1 ∧ p.1 = mkSessionId k
    intro p hp
    rcases List.mem_append.mp hp with h1 | h1
    · rcases hids p h1 with ⟨k, hk1, hk2, hk3⟩
      exact ⟨k, hk1, by omega, hk3⟩
    · rcases List.mem_singleton.mp h1 with rfl
      exact ⟨m.counter + 1, by omega, le_refl _, rfl⟩

theorem C6_create_ids_witness :
    ((PtyManager.mk [("pty-1", ⟨"/w".data⟩)] 1).create "/w2".data).1 ∉
      (PtyManager.mk [("pty-1", ⟨"/w".data⟩)] 1).keys ∧
    ((PtyManager.mk [("pty-1", ⟨"/w".data⟩)] 1).create "/w2".data).1 =
      mkSessionId 2 ∧
    ((PtyManager.mk [("pty-1", ⟨"/w".data⟩)] 1).create "/w2".data).2.Wf :=
  C6_create_ids _ "/w2".data
    ⟨by decide, fun p hp => by
      rcases List.mem_singleton.mp hp with rfl
      exact ⟨1, le_refl 1, le_refl 1, by decide⟩⟩

/-- C7, as stated, is false for interactive session creation: a
caller-supplied `PATH` override in `options.env` is clobbered,
because the spawn environment sets the synthesized `PATH` (and
`TERM`/`COLORTERM`) after spreading `options.env`. -/
theorem C7_counterexample :
    createSpawnEnv emptyEnv (envSet emptyEnv "PATH" "x") "E" "PATH" =
      some "E" ∧
    some "E" ≠ some "x" := by
  constructor
  · rfl
  · decide

/-- C7 (amended): in `getEnvForCommand` caller-supplied overrides are
applied last and win over everything, the inherited environment, the
synthesized PATH and the forced locale included; in interactive
`create`, overrides win over the inherited environment for every
variable except `PATH`, `TERM` and `COLORTERM`, which are set after
`options.env` — in particular `PATH` is always the synthesized
path. -/
theorem C7_env_precedence (procEnv addEnv optsEnv : Env)
    (enhanced k v k2 v2 : String) (hk : addEnv k = some v)
    (hk2 : optsEnv k2 = some v2) (h1 : k2 ≠ "PATH") (h2 : k2 ≠ "TERM")
    (h3 : k2 ≠ "COLORTERM") :
    getEnvForCommand procEnv enhanced addEnv k = some v ∧
    createSpawnEnv procEnv optsEnv enhanced k2 = some v2 ∧
    createSpawnEnv procEnv optsEnv enhanced "PATH" = some enhanced := by
  refine ⟨?_, ?_, ?_⟩
  · simp [getEnvForCommand, envExtend, hk]
  · simp [createSpawnEnv, envSet, envExtend, hk2, h1, h2, h3]
  · simp [createSpawnEnv, envSet]

theorem C7_env_precedence_witness :
    getEnvForCommand emptyEnv "E" (envSet emptyEnv "PATH" "x") "PATH" =
      some "x" ∧
    createSpawnEnv emptyEnv (envSet emptyEnv "FOO" "1") "E" "FOO" =
      some "1" ∧
    createSpawnEnv emptyEnv (envSet emptyEnv "FOO" "1") "E" "PATH" =
      some "E" :=
  C7_env_precedence emptyEnv (envSet emptyEnv "PATH" "x")
    (envSet emptyEnv "FOO" "1") "E" "PATH" "x" "FOO" "1" (by decide)
    (by decide) (by decide) (by decide) (by decide)

/-- C8: for every inherited PATH and home directory, on both
platforms, `getEnhancedPath` returns a non-empty search path whose
entry list contains every inherited entry and every synthesized
well-known directory (each a substring of the joined result), has no
duplicate entries, and places the synthesized directories before the
surviving inherited entries. -/
theorem C8_getEnhancedPath (isWin : Bool) (home currentPath : List Char) :
    getEnhancedPath isWin home currentPath ≠ [] ∧
    (∀ e ∈ jsSplit (pathDelimiter isWin) currentPath,
        e <:+: getEnhancedPath isWin home currentPath) ∧
    (∀ dir ∈ additionalPaths isWin home,
        dir <:+: getEnhancedPath isWin home currentPath) ∧
    (enhancedPathEntries isWin home currentPath).Nodup ∧
    ∃ rest, enhancedPathEntries isWin home currentPath =
        jsSetDedup (additionalPaths isWin home) ++ rest ∧
      ∀ y ∈ rest, y ∈ jsSplit (pathDelimiter isWin) currentPath ∧
        y ∉ additionalPaths isWin home := by
  refine ⟨?_, ?_, ?_, jsSetDedup_nodup _, ?_⟩
  · cases isWin with
    | false =>
      rcases enhancedPathEntries_cons currentPath
          (rfl : additionalPaths false home = _) with ⟨t, ht⟩
      rw [getEnhancedPath, ht]
      exact jsJoin_cons_ne_nil (by decide)
    | true =>
      rcases enhancedPathEntries_cons currentPath
          (rfl : additionalPaths true home = _) with ⟨t, ht⟩
      rw [getEnhancedPath, ht]
      apply jsJoin_cons_ne_nil
      simp
  · intro e he
    exact infix_jsJoin (mem_jsSetDedup.mpr (List.mem_append_right _ he))
  · intro dir hdir
    exact infix_jsJoin (mem_jsSetDedup.mpr (List.mem_append_left _ hdir))
  · have happ := jsSetDedup_append (additionalPaths isWin home)
      (jsSplit (pathDelimiter isWin) currentPath)
    refine ⟨List.filter (fun y => decide (y ∉ additionalPaths isWin home))
        (jsSetDedup (jsSplit (pathDelimiter isWin) currentPath)), ?_, ?_⟩
    · unfold enhancedPathEntries
      rw [happ]
      congr 1
      apply List.filter_congr
      intro y _
      exact decide_eq_decide.mpr Iff.rfl
    · intro y hy
      rcases List.mem_filter.mp hy with ⟨hy1, hy2⟩
      rw [decide_eq_true_eq] at hy2
      exact ⟨mem_jsSetDedup.mp hy1, hy2⟩

/-- C9: `killProcessTree` never raises — the model is a total
function; every OS call in the source sits inside try/catch and every
error is swallowed.  On POSIX, with a resolvable pid it first signals
the process group (`process.kill(-pid)`); if that fails it falls back
to the handle's own kill method when one exists and otherwise to a
raw signal on the bare pid.  With no resolvable pid (absent or 0) it
calls the handle's kill method when available and otherwise does
nothing. -/
theorem C9_killProcessTree (t : KillTarget) (g : Bool) :
    killProcessTree false t g =
      if pidResolvable t = false then
        (if hasKillMethod t then [.signalHandle] else [])
      else
        .signalGroup ((targetPid t).getD 0) ::
          (if g then []
           else [if hasKillMethod t then .signalHandle
                 else .signalPid ((targetPid t).getD 0)]) := by
  cases t with
  | pidNumber p =>
    by_cases hp : p = 0 <;> cases g <;>
      simp [killProcessTree, pidResolvable, targetPid, hasKillMethod, hp]
  | handle po hk =>
    cases po with
    | none =>
      cases hk <;> cases g <;>
        simp [killProcessTree, pidResolvable, targetPid, hasKillMethod]
    | some p =>
      by_cases hp : p = 0 <;> cases hk <;> cases g <;>
        simp [killProcessTree, pidResolvable, targetPid, hasKillMethod, hp]

/-- C10: a synchronous spawn throw inside `execInPty` clears the
timeout timer and rejects with the spawn error after a single spawn
attempt — no fallback-shell retry — whereas `PtyManager.create` on
POSIX retries a failed spawn once with the fallback shell when it
differs from the requested one. -/
theorem C10_spawn_no_retry (k : Bool) (shell fb : String)
    (fails : String → Bool) (hf : fails shell = true) (hfb : fb ≠ shell) :
    execSpawnAttempts shell fails = ([shell], true) ∧
    execInPty k .spawnError = .rejectedSpawnError ∧
    execClearsTimer .spawnError = true ∧
    createSpawnAttempts false shell fb fails = ([shell, fb], fails fb) := by
  refine ⟨?_, rfl, rfl, ?_⟩
  · rw [execSpawnAttempts, hf]
  · rw [createSpawnAttempts]
    simp [hf, hfb]

theorem C10_spawn_no_retry_witness :
    execSpawnAttempts "/bin/zsh" (fun s => decide (s = "/bin/zsh")) =
      (["/bin/zsh"], true) ∧
    execInPty false .spawnError = .rejectedSpawnError ∧
    execClearsTimer .spawnError = true ∧
    createSpawnAttempts false "/bin/zsh" "/bin/sh"
        (fun s => decide (s = "/bin/zsh")) =
      (["/bin/zsh", "/bin/sh"],
        (fun s => decide (s = "/bin/zsh")) "/bin/sh") :=
  C10_spawn_no_retry false "/bin/zsh" "/bin/sh" _ (by decide) (by decide)

end Enso
